import Mathlib

/-!
Verification development for the `endless` voxel terrain repository.

The development shallowly embeds the parts of the source that the checked
properties are about:

* `src/field.rs` — the dense voxel field (`Field<T, D>`), its row-major
  linearization, the 27-bit neighbourhood mask (`Env`), the 6-bit visible-face
  mask (`Vis`), and the `environment` / `visibility` / `shell` passes.
* `src/renderer/voxels.rs` — the mesh builder `VoxelMesh::new` (the variant
  reachable from `main.rs`; `src/voxel_pass.rs` is a superseded snapshot of the
  same function and is noted where it differs).
* `src/main.rs` — the required-chunk computation and the worker/task system
  (task list, in-progress table, claim / publish / frame reconciliation),
  modelled as a labelled transition system.
* `src/renderer.rs` — the 5-plane frustum culling test, modelled over ℚ in
  place of `f32` (exact real arithmetic model of the floating-point program).

Machine integers: `usize` coordinates and extents are `Nat`, `isize` vectors
are `ℤ`.  None of the checked computations can overflow their machine width at
the sizes the program uses (extents are at most 64, chunk keys lie within the
generation radius), so no wraparound modelling is required.
-/

namespace Endless

/-- Shallow embedding of `Field<T, 3>` from `src/field.rs`: a cubical dense
grid of extent `extent`, represented by its (total) contents function.  The
Rust struct stores a flat `Vec<T>` indexed through the row-major `linear`
map; `data x y z` is the value of the in-range slot `[x, y, z]`.  The
buffer/linearization view itself is embedded separately as `linear` below. -/
structure Field (α : Type) where
  extent : Nat
  data : Nat → Nat → Nat → α

/-- The 27-bit neighbourhood bitmask `Env` of `src/field.rs`, one `Bool` per
named bitflag.  Field order follows the flag declaration order
(`ZZZ, ZZP, ..., NNN`); letter `i` in position `j` means offset `+1` (`P`),
`-1` (`N`) or `0` (`Z`) on axis `j` of `(x, y, z)`, with the first letter the
x-offset. -/
structure Env where
  zzz : Bool
  zzp : Bool
  zzn : Bool
  zpz : Bool
  zpp : Bool
  zpn : Bool
  znz : Bool
  znp : Bool
  znn : Bool
  pzz : Bool
  pzp : Bool
  pzn : Bool
  ppz : Bool
  ppp : Bool
  ppn : Bool
  pnz : Bool
  pnp : Bool
  pnn : Bool
  nzz : Bool
  nzp : Bool
  nzn : Bool
  npz : Bool
  npp : Bool
  npn : Bool
  nnz : Bool
  nnp : Bool
  nnn : Bool
deriving Repr, DecidableEq

/-- `bitflags`' `Env::is_all`: every one of the 27 defined flags is set. -/
def Env.is_all (e : Env) : Bool :=
  e.zzz && e.zzp && e.zzn && e.zpz && e.zpp && e.zpn && e.znz && e.znp &&
  e.znn && e.pzz && e.pzp && e.pzn && e.ppz && e.ppp && e.ppn && e.pnz &&
  e.pnp && e.pnn && e.nzz && e.nzp && e.nzn && e.npz && e.npp && e.npn &&
  e.nnz && e.nnp && e.nnn

/-- The 6-bit visible-face bitmask `Vis` of `src/field.rs` (`XP, XN, YP, YN,
ZP, ZN`), one `Bool` per flag. -/
structure Vis where
  xp : Bool
  xn : Bool
  yp : Bool
  yn : Bool
  zp : Bool
  zn : Bool
deriving Repr, DecidableEq

/-- `Field::<bool, 3>::environment` from `src/field.rs`: for every cell, test
the 26 neighbour offsets against the field boundary and the occupancy field,
producing the 27-bit mask.  `xp`..`zn` are the boundary guards computed by the
source (`x < extent - 1`, `x > 0`, ...); an out-of-range neighbour contributes
`false` because the guard short-circuits the access, exactly as in the
source. -/
def Field.environment (f : Field Bool) : Field Env where
  extent := f.extent
  data x y z :=
    let xp : Bool := decide (x < f.extent - 1)
    let xn : Bool := decide (x > 0)
    let yp : Bool := decide (y < f.extent - 1)
    let yn : Bool := decide (y > 0)
    let zp : Bool := decide (z < f.extent - 1)
    let zn : Bool := decide (z > 0)
    { zzz := f.data x y z
      zzp := zp && f.data x y (z + 1)
      zzn := zn && f.data x y (z - 1)
      zpz := yp && f.data x (y + 1) z
      zpp := yp && zp && f.data x (y + 1) (z + 1)
      zpn := yp && zn && f.data x (y + 1) (z - 1)
      znz := yn && f.data x (y - 1) z
      znp := yn && zp && f.data x (y - 1) (z + 1)
      znn := yn && zn && f.data x (y - 1) (z - 1)
      pzz := xp && f.data (x + 1) y z
      pzp := xp && zp && f.data (x + 1) y (z + 1)
      pzn := xp && zn && f.data (x + 1) y (z - 1)
      ppz := xp && yp && f.data (x + 1) (y + 1) z
      ppp := xp && yp && zp && f.data (x + 1) (y + 1) (z + 1)
      ppn := xp && yp && zn && f.data (x + 1) (y + 1) (z - 1)
      pnz := xp && yn && f.data (x + 1) (y - 1) z
      pnp := xp && yn && zp && f.data (x + 1) (y - 1) (z + 1)
      pnn := xp && yn && zn && f.data (x + 1) (y - 1) (z - 1)
      nzz := xn && f.data (x - 1) y z
      nzp := xn && zp && f.data (x - 1) y (z + 1)
      nzn := xn && zn && f.data (x - 1) y (z - 1)
      npz := xn && yp && f.data (x - 1) (y + 1) z
      npp := xn && yp && zp && f.data (x - 1) (y + 1) (z + 1)
      npn := xn && yp && zn && f.data (x - 1) (y + 1) (z - 1)
      nnz := xn && yn && f.data (x - 1) (y - 1) z
      nnp := xn && yn && zp && f.data (x - 1) (y - 1) (z + 1)
      nnn := xn && yn && zn && f.data (x - 1) (y - 1) (z - 1) }

/-- `Field::<bool, 3>::shell` from `src/field.rs`: prune a cell to empty when
its environment mask is full (`set && !env[c].is_all()`). -/
def Field.shell (f : Field Bool) (env : Field Env) : Field Bool where
  extent := f.extent
  data x y z := f.data x y z && !(env.data x y z).is_all

/-- `Field::<Env, 3>::visibility` from `src/field.rs`: convert the
neighbourhood mask into the 6-bit exposed-face set, suppressing faces at the
field's outer boundary via the same guards `xp`..`zn`. -/
def Field.visibility (f : Field Env) : Field Vis where
  extent := f.extent
  data x y z :=
    let env := f.data x y z
    { xp := decide (x < f.extent - 1) && !env.pzz
      xn := decide (x > 0) && !env.nzz
      yp := decide (y < f.extent - 1) && !env.zpz
      yn := decide (y > 0) && !env.znz
      zp := decide (z < f.extent - 1) && !env.zzp
      zn := decide (z > 0) && !env.zzn }

/-- Reference (specification-side) single-pass visibility, written from the
words of the refinement claim: the bit for a face is set exactly when the cell
is not on the field boundary along that face's axis and the face-adjacent
neighbour cell in that direction is unoccupied.  Compared against the
composed two-pass `visibility ∘ environment` in the refinement theorem. -/
def Field.visRef (f : Field Bool) : Field Vis where
  extent := f.extent
  data x y z :=
    { xp := decide (x < f.extent - 1) && !f.data (x + 1) y z
      xn := decide (x > 0) && !f.data (x - 1) y z
      yp := decide (y < f.extent - 1) && !f.data x (y + 1) z
      yn := decide (y > 0) && !f.data x (y - 1) z
      zp := decide (z < f.extent - 1) && !f.data x y (z + 1)
      zn := decide (z > 0) && !f.data x y (z - 1) }

/-! ## Row-major linearization (`Field::linear`, any dimension `D`)

`src/field.rs` stores a `Field<T, D>` as a flat `Vec<T>` of length
`extent ^ D` and converts a `D`-tuple of `usize` coordinates into a buffer
position with `linear`.  Coordinates are embedded as a `List Nat` of length
`D`. -/

/-- `Field::linear` from `src/field.rs`: fold `index = (index + c) * extent`
over the first `D - 1` coordinates, then add the last coordinate. -/
def linear (extent : Nat) (coord : List Nat) : Nat :=
  coord.dropLast.foldl (fun i c => (i + c) * extent) 0 + coord.getLastD 0

/-- A coordinate tuple is in range when every component is below the
extent. -/
def InRange (extent : Nat) (coord : List Nat) : Prop :=
  ∀ c ∈ coord, c < extent

instance (extent : Nat) (coord : List Nat) : Decidable (InRange extent coord) :=
  inferInstanceAs (Decidable (∀ c ∈ coord, c < extent))

/-- The `Index` impl for `Field<T, D>` indexes `self.voxels[self.linear(i)]`;
the only bounds check is `Vec`'s own, against the buffer length
`extent ^ D`.  `IndexPanics` holds exactly when that check fires. -/
def IndexPanics (extent D : Nat) (coord : List Nat) : Prop :=
  extent ^ D ≤ linear extent coord

instance (extent D : Nat) (coord : List Nat) : Decidable (IndexPanics extent D coord) :=
  inferInstanceAs (Decidable (extent ^ D ≤ linear extent coord))

/-! ## Mesh builder (`VoxelMesh::new`, `src/renderer/voxels.rs`)

This is the variant reachable from `main.rs` (via `renderer.rs`).  The
superseded snapshot `src/voxel_pass.rs` differs in exactly one point: it
pushes a face only when the visibility flag is set, while the live variant
additionally pushes every face lying on the field boundary
(`x == 0 || vis[..].contains(Vis::XN)` and so on).

Vertex positions are exact small integers in `f32`, embedded as `ℤ`.  The
source computes the per-face normal as
`(vs[2] - vs[0]).cross(vs[1] - vs[0]).normalize()`; for all 12 cube-face
triangles that cross product is already a unit axis vector (checked by
`cross_unit` below), so `normalize` is the identity on it and the embedding
stores the cross product.  The packed `u32` color is abstracted to the raw
color value carried through (`util::pack` bit-packing is not touched by any
checked property). -/

/-- Lexicographic coordinate enumeration of `coordinates(extent)` in
`src/field.rs` (`CoordinateIter` increments the last axis fastest). -/
def coords3 (e : Nat) : List (Nat × Nat × Nat) :=
  (List.range e).flatMap fun x =>
    (List.range e).flatMap fun y =>
      (List.range e).map fun z => (x, y, z)

/-- `CUBE_VERTICES` from `src/renderer/voxels.rs`. -/
def cubeVertices : List (ℤ × ℤ × ℤ) :=
  [(0, 0, 0), (1, 0, 0), (0, 1, 0), (1, 1, 0),
   (0, 0, 1), (1, 0, 1), (0, 1, 1), (1, 1, 1)]

/-- `CUBE_FACE_X_0` from `src/renderer/voxels.rs` (two index triangles). -/
def cubeFaceX0 : List (Nat × Nat × Nat) := [(6, 2, 0), (6, 0, 4)]

/-- `CUBE_FACE_X_1`. -/
def cubeFaceX1 : List (Nat × Nat × Nat) := [(5, 1, 3), (5, 3, 7)]

/-- `CUBE_FACE_Y_0`. -/
def cubeFaceY0 : List (Nat × Nat × Nat) := [(4, 0, 1), (4, 1, 5)]

/-- `CUBE_FACE_Y_1`. -/
def cubeFaceY1 : List (Nat × Nat × Nat) := [(7, 3, 2), (7, 2, 6)]

/-- `CUBE_FACE_Z_0`. -/
def cubeFaceZ0 : List (Nat × Nat × Nat) := [(0, 2, 3), (0, 3, 1)]

/-- `CUBE_FACE_Z_1`. -/
def cubeFaceZ1 : List (Nat × Nat × Nat) := [(4, 5, 7), (4, 7, 6)]

/-- Componentwise difference of integer 3-vectors. -/
def subv (a b : ℤ × ℤ × ℤ) : ℤ × ℤ × ℤ :=
  (a.1 - b.1, a.2.1 - b.2.1, a.2.2 - b.2.2)

/-- Componentwise sum of integer 3-vectors. -/
def addv (a b : ℤ × ℤ × ℤ) : ℤ × ℤ × ℤ :=
  (a.1 + b.1, a.2.1 + b.2.1, a.2.2 + b.2.2)

/-- Cross product of integer 3-vectors. -/
def crossv (a b : ℤ × ℤ × ℤ) : ℤ × ℤ × ℤ :=
  (a.2.1 * b.2.2 - a.2.2 * b.2.1,
   a.2.2 * b.1 - a.1 * b.2.2,
   a.1 * b.2.1 - a.2.1 * b.1)

/-- One emitted vertex of the voxel mesh: position, (un-normalized, already
unit) flat normal, and the cell color. -/
structure Vtx where
  position : ℤ × ℤ × ℤ
  normal : ℤ × ℤ × ℤ
  color : ℚ × ℚ × ℚ
deriving Repr, DecidableEq

/-- The three vertices emitted for one index triangle of a face: the source
loop `for [i, j, k] in face { ... vertices.extend(...) }`. -/
def triVertices (pos : ℤ × ℤ × ℤ) (col : ℚ × ℚ × ℚ) (tri : Nat × Nat × Nat) :
    List Vtx :=
  let v0 := cubeVertices.getD tri.1 (0, 0, 0)
  let v1 := cubeVertices.getD tri.2.1 (0, 0, 0)
  let v2 := cubeVertices.getD tri.2.2 (0, 0, 0)
  let n := crossv (subv v2 v0) (subv v1 v0)
  [⟨addv pos v0, n, col⟩, ⟨addv pos v1, n, col⟩, ⟨addv pos v2, n, col⟩]

/-- The face list pushed for one occupied cell in `VoxelMesh::new`
(`src/renderer/voxels.rs` lines 209–227): each of the six faces is pushed when
its visibility flag is set *or* the cell lies on the field boundary on that
face's side, in the fixed order X0, X1, Y0, Y1, Z0, Z1. -/
def cellFaces (e : Nat) (x y z : Nat) (v : Vis) : List (List (Nat × Nat × Nat)) :=
  (if x = 0 ∨ v.xn then [cubeFaceX0] else []) ++
  (if x = e - 1 ∨ v.xp then [cubeFaceX1] else []) ++
  (if y = 0 ∨ v.yn then [cubeFaceY0] else []) ++
  (if y = e - 1 ∨ v.yp then [cubeFaceY1] else []) ++
  (if z = 0 ∨ v.zn then [cubeFaceZ0] else []) ++
  (if z = e - 1 ∨ v.zp then [cubeFaceZ1] else [])

/-- The full vertex buffer built by `VoxelMesh::new`
(`src/renderer/voxels.rs`): walk all coordinates in enumeration order, skip
unoccupied cells, and for each pushed face emit its two triangles (6
vertices). -/
def voxelMeshVertices (mask : Field Bool) (vis : Field Vis)
    (color : Field (ℚ × ℚ × ℚ)) : List Vtx :=
  (coords3 mask.extent).flatMap fun c =>
    if mask.data c.1 c.2.1 c.2.2 then
      (cellFaces vis.extent c.1 c.2.1 c.2.2 (vis.data c.1 c.2.1 c.2.2)).flatMap
        fun face => face.flatMap fun tri =>
          triVertices ((c.1 : ℤ), (c.2.1 : ℤ), (c.2.2 : ℤ))
            (color.data c.1 c.2.1 c.2.2) tri
    else []

/-- Number of (occupied cell, face flagged visible) pairs — the quantity the
vertex count is claimed to be six times. -/
def visibleFlagCount (mask : Field Bool) (vis : Field Vis) : Nat :=
  ((coords3 mask.extent).map fun c =>
    if mask.data c.1 c.2.1 c.2.2 then
      (let v := vis.data c.1 c.2.1 c.2.2
       (if v.xn then 1 else 0) + (if v.xp then 1 else 0) +
       (if v.yn then 1 else 0) + (if v.yp then 1 else 0) +
       (if v.zn then 1 else 0) + (if v.zp then 1 else 0))
    else 0).sum

/-- Number of (occupied cell, face) pairs the mesh builder actually emits:
the face is flagged visible or the cell is on the field boundary on that
face's side. -/
def emittedFaceCount (mask : Field Bool) (vis : Field Vis) : Nat :=
  ((coords3 mask.extent).map fun c =>
    if mask.data c.1 c.2.1 c.2.2 then
      (let v := vis.data c.1 c.2.1 c.2.2
       let e := vis.extent
       (if c.1 = 0 ∨ v.xn then 1 else 0) + (if c.1 = e - 1 ∨ v.xp then 1 else 0) +
       (if c.2.1 = 0 ∨ v.yn then 1 else 0) + (if c.2.1 = e - 1 ∨ v.yp then 1 else 0) +
       (if c.2.2 = 0 ∨ v.zn then 1 else 0) + (if c.2.2 = e - 1 ∨ v.zp then 1 else 0))
    else 0).sum

/-! ## Required-chunk computation (`src/main.rs` lines 466–483)

Constants: `N = 64` is the chunk side extent (`src/world.rs`).  `K` is the
maximum level of detail; `main.rs` imports it from the current `world.rs`,
which is not among the retained sources (the `world.rs` snapshot in the tree
predates it).

The source computes `let lod = ((x.pow(2) + y.pow(2)) as f32).sqrt() as usize`.
For every offset in the generation radius, `x² + y² ≤ 2·(K << 6)² < 2²⁴` is
exactly representable in `f32`, and the correctly rounded `f32` square root
truncated to an integer agrees with `Nat.sqrt` on this whole range (the
nearest-float rounding error, below `2⁻¹⁴` here, is far smaller than the
distance `≥ 1/(2·⌊√n⌋+2)` from `√n` to the nearest integer when `n` is not a
perfect square, and is zero when it is).  The embedding therefore uses
`Nat.sqrt`. -/

/-- Chunk side extent `N` from `src/world.rs`. -/
def N : Nat := 64

/-- Modelled from the spec: the maximum level-of-detail constant `K` of the
current `world.rs`, which is missing from the retained sources (`main.rs`
uses `world::K` for the `Max LoD` slider bound and the generation radius).
Per the spec, the LOD range is clipped so that no LOD reduces the chunk's
voxel extent `N >> lod` to zero; with `N = 64` that bound is `K = 6`. -/
def K : Nat := 6

/-- Structurally recursive integer square root (downward search), used so
that the embedding evaluates inside the kernel; `isqrt_eq` proves it equal to
`Nat.sqrt`. -/
def isqrtGo (n : Nat) : Nat → Nat
  | 0 => 0
  | m + 1 => if (m + 1) * (m + 1) ≤ n then m + 1 else isqrtGo n m

/-- Integer square root `⌊√n⌋`. -/
def isqrt (n : Nat) : Nat := isqrtGo n n

/-- The LOD assigned to a planar offset `(x, y)` from the viewer cell:
quantized Euclidean distance `⌊√(x² + y²)⌋ >> lod_shift`. -/
def lodOfOffset (lodShift : Nat) (x y : ℤ) : Nat :=
  isqrt (x ^ 2 + y ^ 2).toNat >>> lodShift

/-- Inclusive integer range `lo..=hi` as a list. -/
def intRange (lo hi : ℤ) : List ℤ :=
  (List.range (hi - lo + 1).toNat).map fun (n : Nat) => lo + (n : ℤ)

/-- A chunk key: the 3D integer grid cell (`Vector3<isize>`). -/
abbrev Key := ℤ × ℤ × ℤ

/-- A task-table entry: key plus requested LOD. -/
abbrev Entry := Key × Nat

/-- The generation radius `(K << lod_shift) as isize` (`src/main.rs` 471). -/
def genRadius (lodShift : Nat) : ℤ := (K <<< lodShift : Nat)

/-- The required chunk set of one frame (`src/main.rs` 466–483): for every
offset `x, y` in `-(K << lod_shift)..=(K << lod_shift)` and `z` in `0..=1`,
the key `(camera.x + x, camera.y + y, z)` is required at
`lod = lodOfOffset` whenever that LOD is at most `max_lod`.  The source
inserts into a `HashMap`; the keys produced by distinct loop iterations are
distinct, so the map is exactly this association list. -/
def requiredList (cam : ℤ × ℤ) (maxLod lodShift : Nat) : List Entry :=
  (intRange (-genRadius lodShift) (genRadius lodShift)).flatMap fun x =>
    (intRange (-genRadius lodShift) (genRadius lodShift)).flatMap fun y =>
      ([0, 1] : List ℤ).flatMap fun z =>
        if lodOfOffset lodShift x y ≤ maxLod then
          [((cam.1 + x, cam.2 + y, z), lodOfOffset lodShift x y)]
        else []

/-! ## The task system (`src/main.rs` lines 92–166 and 456–526)

The shared state is modelled as a labelled transition system.  Both
`HashMap<Vector3<isize>, usize>` tables are association lists whose `insert`
replaces any entry with the same key; iteration order of a `HashMap` is
arbitrary, so the list order used here (insertion order) is one realizable
order.  The eight worker threads are a function `Fin 8 → Option Entry`
(`none` = at the top of the loop, `some (key, lod)` = generating that claimed
pair).  The mpsc channel is the FIFO list `sent`; the resident chunk map
`world.chunks` keeps, for each key, the LOD of the stored chunk (a generated
`Chunk` carries the LOD it was built at).

Transitions (each one lock region or main-owned phase of the source):
claiming a task (`main.rs` 108–136), publishing (`main.rs` 147–163), draining
the channel (462–464), updating `player_cell` (468), and the reconciliation
of eviction and the task list (485–517). -/

/-- Association-list lookup, i.e. `HashMap::get`. -/
def lookupA (l : List Entry) (k : Key) : Option Nat :=
  (l.find? fun e => decide (e.1 = k)).map Prod.snd

/-- Association-list key removal, i.e. `HashMap::remove`. -/
def eraseKeyA (l : List Entry) (k : Key) : List Entry :=
  l.filter fun e => decide (e.1 ≠ k)

/-- Association-list insert-or-replace, i.e. `HashMap::insert`. -/
def insertA (l : List Entry) (k : Key) (v : Nat) : List Entry :=
  eraseKeyA l k ++ [(k, v)]

/-- The state of the streaming task system. -/
structure SysState where
  taskList : List Entry
  inProgress : List Entry
  player : Key
  workers : Fin 8 → Option Entry
  sent : List Entry
  resident : List Entry

/-- Start-up state: empty tables, `player_cell = Vector3::zero()`, all eight
workers at the top of their loop, empty channel, no resident chunks. -/
def initState : SysState :=
  ⟨[], [], (0, 0, 0), fun _ => none, [], []⟩

/-- `(key - player_cell).magnitude2()` — squared Euclidean distance. -/
def dist2 (a b : Key) : ℤ :=
  (a.1 - b.1) ^ 2 + (a.2.1 - b.2.1) ^ 2 + (a.2.2 - b.2.2) ^ 2

/-- The `min_by_key` ordering key `(distance, lod)` of the worker's task
selection. -/
def priority (player : Key) (e : Entry) : ℤ × Nat :=
  (dist2 e.1 player, e.2)

/-- Strict lexicographic order on `(distance, lod)` pairs (Rust tuple
`Ord`). -/
def prioLtB (p q : ℤ × Nat) : Bool :=
  decide (p.1 < q.1) || (decide (p.1 = q.1) && decide (p.2 < q.2))

/-- Non-strict lexicographic order on `(distance, lod)` pairs. -/
def prioLeB (p q : ℤ × Nat) : Bool :=
  !prioLtB q p

/-- The worker's `filter` closure (`main.rs` 117–123): a pending entry
qualifies unless its key is in progress at the same LOD. -/
def eligibleB (inProg : List Entry) (e : Entry) : Bool :=
  match lookupA inProg e.1 with
  | some l => decide (e.2 ≠ l)
  | none => true

/-- `Iterator::min_by_key` over a list: keep the earlier element unless a
strictly smaller key appears (Rust returns the first of equal minima). -/
def minByPrio (player : Key) : List Entry → Option Entry
  | [] => none
  | e :: es =>
    some (es.foldl
      (fun acc x => if prioLtB (priority player x) (priority player acc) then x else acc) e)

/-- The worker's task selection (`main.rs` 113–132):
`task_list.iter().filter(..).min_by_key(..)` for one realizable iteration
order. -/
def selectTask (taskList inProg : List Entry) (player : Key) : Option Entry :=
  minByPrio player (taskList.filter (eligibleB inProg))

/-- The fold at the heart of `min_by_key`, abstracted for the proofs. -/
def minFold (pl : Key) (acc : Entry) (t : List Entry) : Entry :=
  t.foldl (fun a x => if prioLtB (priority pl x) (priority pl a) then x else a) acc

/-- Effect of a worker claiming a task (`main.rs` 134):
`tasks.in_progress.insert(key, lod)` — replacing any previous LOD for the
key — and the worker starts generating. -/
def claimEffect (i : Fin 8) (e : Entry) (s : SysState) : SysState :=
  { s with
    inProgress := insertA s.inProgress e.1 e.2
    workers := Function.update s.workers i (some e) }

/-- A claim transition of worker `i` (the first lock region of the worker
loop, `main.rs` 109–136): the worker is at the top of its loop, the selection
yields `e`, and the effect is applied. -/
def ClaimStep (i : Fin 8) (e : Entry) (s s' : SysState) : Prop :=
  s.workers i = none ∧
  selectTask s.taskList s.inProgress s.player = some e ∧
  s' = claimEffect i e s

/-- Effect of a worker publishing its generated chunk (`main.rs` 147–163): in
one lock region, remove the in-progress entry if it still holds the claimed
LOD, and — independently — if the task list still maps the key to the claimed
LOD, remove it there and send the chunk on the channel; otherwise the chunk
is dropped. -/
def publishEffect (i : Fin 8) (s : SysState) : SysState :=
  match s.workers i with
  | none => s
  | some e =>
    { s with
      inProgress :=
        if lookupA s.inProgress e.1 = some e.2 then eraseKeyA s.inProgress e.1
        else s.inProgress
      taskList :=
        if lookupA s.taskList e.1 = some e.2 then eraseKeyA s.taskList e.1
        else s.taskList
      sent :=
        if lookupA s.taskList e.1 = some e.2 then s.sent ++ [e]
        else s.sent
      workers := Function.update s.workers i none }

/-- A publish transition of worker `i`. -/
def PublishStep (i : Fin 8) (s s' : SysState) : Prop :=
  (∃ e, s.workers i = some e) ∧ s' = publishEffect i s

/-- Effect of the main thread draining the result channel (`main.rs`
462–464): insert every received `(key, chunk)` into the resident map in send
order. -/
def drainEffect (s : SysState) : SysState :=
  { s with
    resident := s.sent.foldl (fun r e => insertA r e.1 e.2) s.resident
    sent := [] }

/-- A drain transition. -/
def DrainStep (s s' : SysState) : Prop :=
  s' = drainEffect s

/-- Effect of the main thread storing the camera cell into the shared
`player_cell` (`main.rs` 468). -/
def setPlayerEffect (cam : Key) (s : SysState) : SysState :=
  { s with player := cam }

/-- A player-cell update transition. -/
def SetPlayerStep (cam : Key) (s s' : SysState) : Prop :=
  s' = setPlayerEffect cam s

/-- Effect of the per-frame reconciliation (`main.rs` 485–517): evict
resident chunks whose key is not required; drop pending tasks whose
`(key, lod)` is no longer required; then, for each required `(key, lod)` not
already pending at that LOD and not already resident at that LOD, insert it
into the task list. -/
def reconcileEffect (cam : Key) (maxLod lodShift : Nat) (s : SysState) : SysState :=
  let required := requiredList (cam.1, cam.2.1) maxLod lodShift
  let resident1 := s.resident.filter fun e => (lookupA required e.1).isSome
  let tasks1 := s.taskList.filter fun e => decide (lookupA required e.1 = some e.2)
  let tasks2 := required.foldl
    (fun tl e =>
      if lookupA tl e.1 = some e.2 then tl
      else if lookupA resident1 e.1 = some e.2 then tl
      else insertA tl e.1 e.2)
    tasks1
  { s with resident := resident1, taskList := tasks2 }

/-- A reconciliation transition; `max_lod` and `lod_shift` are user inputs
bounded by their slider ranges `0..=K` and `0..=6` (`main.rs` 397–398). -/
def ReconcileStep (cam : Key) (maxLod lodShift : Nat) (s s' : SysState) : Prop :=
  maxLod ≤ K ∧ lodShift ≤ 6 ∧ s' = reconcileEffect cam maxLod lodShift s

/-- One transition of the system. -/
def SysStep (s s' : SysState) : Prop :=
  (∃ i e, ClaimStep i e s s') ∨
  (∃ i, PublishStep i s s') ∨
  DrainStep s s' ∨
  (∃ cam, SetPlayerStep cam s s') ∨
  (∃ cam maxLod lodShift, ReconcileStep cam maxLod lodShift s s')

/-- Reachability from the start-up state. -/
def Reachable (s : SysState) : Prop :=
  Relation.ReflTransGen SysStep initState s

/-- A table holds at most one entry per key (the defining property of a
`HashMap`'s entry set). -/
def keysNodup (l : List Entry) : Prop :=
  (l.map Prod.fst).Nodup

/-! ## Frustum culling (`src/renderer.rs` lines 208–247)

The floating-point (`f32`) computation is modelled over `ℚ` (exact real
arithmetic).  `perspective_matrix` is parameterized by `t = tan(fovy / 2)`
directly, since only the tangent's value enters the matrix. -/

/-- A 4-component vector (`cgmath::Vector4<f32>`, over `ℚ`). -/
structure Vec4 where
  x : ℚ
  y : ℚ
  z : ℚ
  w : ℚ
deriving Repr, DecidableEq

/-- Componentwise sum. -/
def Vec4.add (a b : Vec4) : Vec4 := ⟨a.x + b.x, a.y + b.y, a.z + b.z, a.w + b.w⟩

/-- Componentwise difference. -/
def Vec4.sub (a b : Vec4) : Vec4 := ⟨a.x - b.x, a.y - b.y, a.z - b.z, a.w - b.w⟩

/-- Scalar multiple. -/
def Vec4.smul (c : ℚ) (a : Vec4) : Vec4 := ⟨c * a.x, c * a.y, c * a.z, c * a.w⟩

/-- Dot product (`Vector4::dot`). -/
def dot4 (a b : Vec4) : ℚ := a.x * b.x + a.y * b.y + a.z * b.z + a.w * b.w

/-- A 4×4 matrix as its four columns (`cgmath::Matrix4` is column-major). -/
structure Mat4 where
  c0 : Vec4
  c1 : Vec4
  c2 : Vec4
  c3 : Vec4
deriving Repr, DecidableEq

/-- Matrix-vector product. -/
def mulV (a : Mat4) (v : Vec4) : Vec4 :=
  (Vec4.smul v.x a.c0).add ((Vec4.smul v.y a.c1).add
    ((Vec4.smul v.z a.c2).add (Vec4.smul v.w a.c3)))

/-- Matrix product. -/
def mulM (a b : Mat4) : Mat4 :=
  ⟨mulV a b.c0, mulV a b.c1, mulV a b.c2, mulV a b.c3⟩

/-- Matrix transpose: column `i` of the result is row `i` of the input. -/
def transposeM (a : Mat4) : Mat4 :=
  ⟨⟨a.c0.x, a.c1.x, a.c2.x, a.c3.x⟩,
   ⟨a.c0.y, a.c1.y, a.c2.y, a.c3.y⟩,
   ⟨a.c0.z, a.c1.z, a.c2.z, a.c3.z⟩,
   ⟨a.c0.w, a.c1.w, a.c2.w, a.c3.w⟩⟩

/-- `perspective_matrix` from `src/camera.rs`, with `tanHalfFovy` standing
for `(0.5 * fovy).tan()`; both the finite-far and the infinite-far branch are
embedded.  `renderer.rs` calls it with far `None` and near `0.1`. -/
def perspectiveMatrix (tanHalfFovy aspect near : ℚ) (far : Option ℚ) : Mat4 :=
  match far with
  | some far =>
    ⟨⟨1 / (aspect * tanHalfFovy), 0, 0, 0⟩,
     ⟨0, 1 / tanHalfFovy, 0, 0⟩,
     ⟨0, 0, -(far + near) / (far - near), -1⟩,
     ⟨0, 0, -2 * far * near / (far - near), 0⟩⟩
  | none =>
    ⟨⟨1 / (aspect * tanHalfFovy), 0, 0, 0⟩,
     ⟨0, 1 / tanHalfFovy, 0, 0⟩,
     ⟨0, 0, -1, -1⟩,
     ⟨0, 0, -2 * near, 0⟩⟩

/-- `Symmetry` from `src/symmetry.rs` over ℚ: rotation quaternion
`(s, vx, vy, vz)`, translation, uniform scale. -/
structure SymmetryQ where
  rotation : ℚ × ℚ × ℚ × ℚ
  translation : ℚ × ℚ × ℚ
  scale : ℚ
deriving Repr, DecidableEq

/-- Componentwise sum of rational 3-vectors. -/
def addq (a b : ℚ × ℚ × ℚ) : ℚ × ℚ × ℚ :=
  (a.1 + b.1, a.2.1 + b.2.1, a.2.2 + b.2.2)

/-- Scalar multiple of a rational 3-vector. -/
def smulq (c : ℚ) (a : ℚ × ℚ × ℚ) : ℚ × ℚ × ℚ :=
  (c * a.1, c * a.2.1, c * a.2.2)

/-- Quaternion-vector rotation (`cgmath`): `t = v × u + s·u`, result
`2·(v × t) + u`. -/
def quatRotate (q : ℚ × ℚ × ℚ × ℚ) (u : ℚ × ℚ × ℚ) : ℚ × ℚ × ℚ :=
  let v : ℚ × ℚ × ℚ := (q.2.1, q.2.2.1, q.2.2.2)
  let crossq : ℚ × ℚ × ℚ → ℚ × ℚ × ℚ → ℚ × ℚ × ℚ := fun a b =>
    (a.2.1 * b.2.2 - a.2.2 * b.2.1,
     a.2.2 * b.1 - a.1 * b.2.2,
     a.1 * b.2.1 - a.2.1 * b.1)
  let t := addq (crossq v u) (smulq q.1 u)
  addq (smulq 2 (crossq v t)) u

/-- `Symmetry::matrix` (`src/symmetry.rs`): quaternion-to-matrix conversion
(`cgmath`), scale applied to the three rotation columns, translation written
into the fourth column. -/
def SymmetryQ.matrix (sym : SymmetryQ) : Mat4 :=
  let s := sym.rotation.1
  let vx := sym.rotation.2.1
  let vy := sym.rotation.2.2.1
  let vz := sym.rotation.2.2.2
  let x2 := vx + vx
  let y2 := vy + vy
  let z2 := vz + vz
  let xx2 := x2 * vx
  let xy2 := x2 * vy
  let xz2 := x2 * vz
  let yy2 := y2 * vy
  let yz2 := y2 * vz
  let zz2 := z2 * vz
  let sy2 := y2 * s
  let sz2 := z2 * s
  let sx2 := x2 * s
  ⟨⟨sym.scale * (1 - yy2 - zz2), sym.scale * (xy2 + sz2), sym.scale * (xz2 - sy2), 0⟩,
   ⟨sym.scale * (xy2 - sz2), sym.scale * (1 - xx2 - zz2), sym.scale * (yz2 + sx2), 0⟩,
   ⟨sym.scale * (xz2 + sy2), sym.scale * (yz2 - sx2), sym.scale * (1 - xx2 - yy2), 0⟩,
   ⟨sym.translation.1, sym.translation.2.1, sym.translation.2.2, 1⟩⟩

/-- `Symmetry::inverse` (`src/symmetry.rs`): reciprocal scale, conjugate
rotation, and `inverse_rotation * (inverse_scale * -translation)`. -/
def SymmetryQ.inverse (sym : SymmetryQ) : SymmetryQ :=
  let invScale := 1 / sym.scale
  let invRot : ℚ × ℚ × ℚ × ℚ :=
    (sym.rotation.1, -sym.rotation.2.1, -sym.rotation.2.2.1, -sym.rotation.2.2.2)
  { rotation := invRot
    translation := quatRotate invRot
      (invScale * -sym.translation.1, invScale * -sym.translation.2.1,
       invScale * -sym.translation.2.2)
    scale := invScale }

/-- The five extracted half-space planes (`renderer.rs` 219–225): with
`m = (proj · view · model)ᵀ`, the planes are `m[3] ± m[i]` for the left,
right, bottom, top and near planes — no far plane. -/
def planesOf (m : Mat4) : List Vec4 :=
  [m.c3.add m.c0, m.c3.sub m.c0, m.c3.add m.c1, m.c3.sub m.c1, m.c3.add m.c2]

/-- The 8 corners of the `[0, max]³` chunk bounding box, in the
`cartesian_product` order of the source. -/
def cornersOf (mx : ℚ) : List (ℚ × ℚ × ℚ) :=
  ([0, mx] : List ℚ).flatMap fun x =>
    ([0, mx] : List ℚ).flatMap fun y =>
      ([0, mx] : List ℚ).map fun z => (x, y, z)

/-- The culling test (`renderer.rs` 236–242): the chunk is *skipped* exactly
when some plane has all 8 box corners at non-positive signed distance (the
source pushes the chunk when `!planes.any(|plane| corners.all(dist ≤ 0))`). -/
def culled (pvm : Mat4) (mx : ℚ) : Bool :=
  (planesOf (transposeM pvm)).any fun pl =>
    (cornersOf mx).all fun c => decide (dot4 pl ⟨c.1, c.2.1, c.2.2, 1⟩ ≤ 0)

/-! ## Concrete instances used by witnesses and counterexamples -/

/-- A concrete fully-occupied 3×3×3 field. -/
def bfield : Field Bool := ⟨3, fun _ _ _ => true⟩

/-- A concrete fully-occupied 1×1×1 field. -/
def mask1 : Field Bool := ⟨1, fun _ _ _ => true⟩

/-- Its two-pass visibility field (all six flags false: every face of the
single cell is on the field boundary). -/
def vis1 : Field Vis := mask1.environment.visibility

/-- A constant color field of extent 1. -/
def color1 : Field (ℚ × ℚ × ℚ) := ⟨1, fun _ _ _ => (0, 0, 0)⟩

/-- A one-task state used as a witness input for the selection theorems. -/
def wState : SysState :=
  ⟨[((0, 0, 0), 0)], [], (0, 0, 0), fun _ => none, [], []⟩

/-- A witness input for the publish theorem: worker 0 is generating
`((0,0,0), 0)`, which is still pending and in progress at LOD 0. -/
def wPub : SysState :=
  ⟨[((0, 0, 0), 0)], [((0, 0, 0), 0)], (0, 0, 0),
    fun i => if i = 0 then some ((0, 0, 0), 0) else none, [], []⟩

/-- The identity matrix, a degenerate but valid clip matrix used as witness
input for the culling theorem. -/
def idM : Mat4 :=
  ⟨⟨1, 0, 0, 0⟩, ⟨0, 1, 0, 0⟩, ⟨0, 0, 1, 0⟩, ⟨0, 0, 0, 1⟩⟩

/-- Projection of the culling counterexample: `perspective_matrix` with
`tan(fovy/2) = 1` (fovy = 90°), aspect 1, near 0.1 and no far plane, exactly
as `renderer.rs` builds it. -/
def projEx : Mat4 := perspectiveMatrix 1 1 (1 / 10) none

/-- Camera symmetry of the culling counterexample (world → view): identity
rotation, translation `(-32, -32, -1/20)`, scale 1.  The camera world
position — its inverse's translation — is `(32, 32, 1/20)`. -/
def camSymEx : SymmetryQ := ⟨(1, 0, 0, 0), (-32, -32, -(1 / 20)), 1⟩

/-- Chunk placement of the culling counterexample: the chunk with key
`(0,0,0)` at LOD 0 — translation `N * key = 0`, scale `2^0 = 1` — whose
model-space bounding box is `[0, 64]³` and coincides with its world-space
box. -/
def chunkSymEx : SymmetryQ := ⟨(1, 0, 0, 0), (0, 0, 0), 1⟩

/-- The clip matrix `proj * view * model` of the culling counterexample. -/
def pvmEx : Mat4 := mulM projEx (mulM camSymEx.matrix chunkSymEx.matrix)

/-! ### A concrete schedule of the task system

The following states form one execution: the camera starts at cell
`camA = (0,0,0)` with `max_lod = 1` and `lod_shift = 0` (both within their
slider ranges), worker 0 claims the closest task `((0,0,0), 0)`, the camera
moves to `camB = (1,0,0)` — superseding that key to LOD 1 — five more workers
claim the now-closest tasks (worker 5 claiming `((0,0,0), 1)`, which
overwrites the key's in-progress LOD), and the camera moves back to `camA`,
re-requesting `((0,0,0), 0)` while worker 0 is still generating it. -/

/-- First camera cell of the schedule. -/
def camA : Key := (0, 0, 0)

/-- Second camera cell of the schedule. -/
def camB : Key := (1, 0, 0)

/-- Schedule state: player cell published for the first frame. -/
def s1 : SysState := setPlayerEffect camA initState

/-- Schedule state: first frame reconciled. -/
def s2 : SysState := reconcileEffect camA 1 0 s1

/-- Schedule state: worker 0 has claimed `((0,0,0), 0)`. -/
def s3 : SysState := claimEffect 0 ((0, 0, 0), 0) s2

/-- Schedule state: player cell published for the second frame. -/
def s4 : SysState := setPlayerEffect camB s3

/-- Schedule state: second frame reconciled — key `(0,0,0)` now required at
LOD 1. -/
def s5 : SysState := reconcileEffect camB 1 0 s4

/-- Schedule state: worker 1 has claimed `((1,0,0), 0)`. -/
def s6 : SysState := claimEffect 1 ((1, 0, 0), 0) s5

/-- Schedule state: worker 2 has claimed `((1,0,1), 0)`. -/
def s7 : SysState := claimEffect 2 ((1, 0, 1), 0) s6

/-- Schedule state: worker 3 has claimed `((1,-1,0), 1)`. -/
def s8 : SysState := claimEffect 3 ((1, -1, 0), 1) s7

/-- Schedule state: worker 4 has claimed `((1,1,0), 1)`. -/
def s9 : SysState := claimEffect 4 ((1, 1, 0), 1) s8

/-- Schedule state: worker 5 has claimed `((0,0,0), 1)`, overwriting the
in-progress LOD of key `(0,0,0)` while worker 0 is still generating it at
LOD 0. -/
def s10 : SysState := claimEffect 5 ((0, 0, 0), 1) s9

/-- Schedule state: player cell published for the third frame, back at
`camA`. -/
def s11 : SysState := setPlayerEffect camA s10

/-- Schedule state: third frame reconciled — `((0,0,0), 0)` is pending again
while worker 0 still generates it and the in-progress table holds LOD 1 for
the key. -/
def s12 : SysState := reconcileEffect camA 1 0 s11

/-- Schedule state: worker 6 has claimed `((0,0,0), 0)` — the same pair
worker 0 is still generating. -/
def s13 : SysState := claimEffect 6 ((0, 0, 0), 0) s12

/-! ## Proofs -/

lemma band_not_band (g v : Bool) : (g && !(g && v)) = (g && !v) := by
  cases g <;> cases v <;> rfl

/-- Pointwise monotonicity of occupancy transfers to the full-environment
test: if `s` is pointwise below `f`, a cell whose `s`-environment is full has
a full `f`-environment. -/
lemma is_all_mono {s f : Field Bool} (hext : s.extent = f.extent)
    (h : ∀ a b c, s.data a b c = true → f.data a b c = true) (x y z : Nat)
    (hs : ((s.environment).data x y z).is_all = true) :
    ((f.environment).data x y z).is_all = true := by
  simp only [Field.environment, Env.is_all, Bool.and_eq_true] at hs ⊢
  rw [hext] at hs
  obtain ⟨⟨⟨⟨⟨⟨⟨⟨⟨⟨⟨⟨⟨⟨⟨⟨⟨⟨⟨⟨⟨⟨⟨⟨⟨⟨h1, h2⟩, h3⟩, h4⟩, h5⟩, h6⟩, h7⟩, h8⟩,
    h9⟩, h10⟩, h11⟩, h12⟩, h13⟩, h14⟩, h15⟩, h16⟩, h17⟩, h18⟩, h19⟩, h20⟩,
    h21⟩, h22⟩, h23⟩, h24⟩, h25⟩, h26⟩, h27⟩ := hs
  exact ⟨⟨⟨⟨⟨⟨⟨⟨⟨⟨⟨⟨⟨⟨⟨⟨⟨⟨⟨⟨⟨⟨⟨⟨⟨⟨h _ _ _ h1, ⟨h2.1, h _ _ _ h2.2⟩⟩,
    ⟨h3.1, h _ _ _ h3.2⟩⟩, ⟨h4.1, h _ _ _ h4.2⟩⟩, ⟨h5.1, h _ _ _ h5.2⟩⟩,
    ⟨h6.1, h _ _ _ h6.2⟩⟩, ⟨h7.1, h _ _ _ h7.2⟩⟩, ⟨h8.1, h _ _ _ h8.2⟩⟩,
    ⟨h9.1, h _ _ _ h9.2⟩⟩, ⟨h10.1, h _ _ _ h10.2⟩⟩, ⟨h11.1, h _ _ _ h11.2⟩⟩,
    ⟨h12.1, h _ _ _ h12.2⟩⟩, ⟨h13.1, h _ _ _ h13.2⟩⟩, ⟨h14.1, h _ _ _ h14.2⟩⟩,
    ⟨h15.1, h _ _ _ h15.2⟩⟩, ⟨h16.1, h _ _ _ h16.2⟩⟩, ⟨h17.1, h _ _ _ h17.2⟩⟩,
    ⟨h18.1, h _ _ _ h18.2⟩⟩, ⟨h19.1, h _ _ _ h19.2⟩⟩, ⟨h20.1, h _ _ _ h20.2⟩⟩,
    ⟨h21.1, h _ _ _ h21.2⟩⟩, ⟨h22.1, h _ _ _ h22.2⟩⟩, ⟨h23.1, h _ _ _ h23.2⟩⟩,
    ⟨h24.1, h _ _ _ h24.2⟩⟩, ⟨h25.1, h _ _ _ h25.2⟩⟩, ⟨h26.1, h _ _ _ h26.2⟩⟩,
    ⟨h27.1, h _ _ _ h27.2⟩⟩

lemma shell_data_le (f : Field Bool) (env : Field Env) (x y z : Nat)
    (h : (f.shell env).data x y z = true) : f.data x y z = true := by
  simpa [Field.shell, Bool.and_eq_true] using (Bool.and_eq_true _ _ |>.mp h).1

lemma foldl_linear_acc (e : Nat) (l : List Nat) (acc : Nat) :
    l.foldl (fun i c => (i + c) * e) acc
      = acc * e ^ l.length + l.foldl (fun i c => (i + c) * e) 0 := by
  induction l generalizing acc with
  | nil => simp
  | cons a t ih =>
    simp only [List.foldl_cons, List.length_cons]
    rw [ih ((acc + a) * e), ih ((0 + a) * e)]
    ring

lemma linear_singleton (e a : Nat) : linear e [a] = a := by
  simp [linear]

lemma getLastD_ne_nil {l : List Nat} (h : l ≠ []) (d1 d2 : Nat) :
    l.getLastD d1 = l.getLastD d2 := by
  cases l with
  | nil => cases h rfl
  | cons x xs =>
    rw [List.getLastD_eq_getLast?, List.getLastD_eq_getLast?]
    cases hx : (x :: xs).getLast? with
    | none => simp at hx
    | some v => rfl

lemma linear_cons (e a : Nat) (cs : List Nat) (h : cs ≠ []) :
    linear e (a :: cs) = a * e ^ cs.length + linear e cs := by
  obtain ⟨b, cs', rfl⟩ := List.exists_cons_of_ne_nil h
  simp only [linear, List.dropLast_cons₂, List.foldl_cons, List.getLastD_cons]
  rw [foldl_linear_acc e ((b :: cs').dropLast) ((0 + a) * e)]
  have hlen : (b :: cs').dropLast.length = cs'.length := by
    simp
  rw [hlen, show (b :: cs').length = cs'.length + 1 from rfl, pow_succ]
  ring

lemma linear_lt (e : Nat) (c : List Nat) (hne : c ≠ []) (hb : ∀ i ∈ c, i < e) :
    linear e c < e ^ c.length := by
  induction c with
  | nil => cases hne rfl
  | cons a cs ih =>
    have ha : a < e := hb a (List.mem_cons_self _ _)
    cases cs with
    | nil => simpa [linear_singleton] using ha
    | cons b cs' =>
      have hsub : ∀ i ∈ b :: cs', i < e := fun i hi => hb i (List.mem_cons_of_mem _ hi)
      have hr := ih (by simp) hsub
      rw [linear_cons e a (b :: cs') (by simp)]
      have h1 : a * e ^ (b :: cs').length + linear e (b :: cs')
          < (a + 1) * e ^ (b :: cs').length := by
        have := hr
        nlinarith
      have h2 : (a + 1) * e ^ (b :: cs').length ≤ e * e ^ (b :: cs').length :=
        Nat.mul_le_mul_right _ ha
      calc a * e ^ (b :: cs').length + linear e (b :: cs')
          < (a + 1) * e ^ (b :: cs').length := h1
        _ ≤ e * e ^ (b :: cs').length := h2
        _ = e ^ (a :: b :: cs').length := by
            rw [show (a :: b :: cs').length = (b :: cs').length + 1 from rfl, pow_succ]
            ring

lemma linear_inj (e : Nat) (c1 : List Nat) : ∀ (c2 : List Nat),
    c1.length = c2.length → (∀ i ∈ c1, i < e) → (∀ i ∈ c2, i < e) →
    linear e c1 = linear e c2 → c1 = c2 := by
  induction c1 with
  | nil =>
    intro c2 hlen _ _ _
    exact (List.length_eq_zero.mp hlen.symm).symm
  | cons a cs ih =>
    intro c2 hlen hb1 hb2 heq
    obtain ⟨b, ds, rfl⟩ := List.exists_cons_of_ne_nil
      (List.ne_nil_of_length_pos (by rw [← hlen]; simp))
    have hlen' : cs.length = ds.length := by simpa using hlen
    have ha : a < e := hb1 a (List.mem_cons_self _ _)
    have he : 0 < e := Nat.lt_of_le_of_lt (Nat.zero_le a) ha
    cases cs with
    | nil =>
      obtain rfl : ds = [] := List.length_eq_zero.mp hlen'.symm
      rw [linear_singleton, linear_singleton] at heq
      rw [heq]
    | cons c cs' =>
      obtain ⟨d, ds', rfl⟩ := List.exists_cons_of_ne_nil
        (List.ne_nil_of_length_pos (by rw [← hlen']; simp))
      have hsub1 : ∀ i ∈ c :: cs', i < e := fun i hi => hb1 i (List.mem_cons_of_mem _ hi)
      have hsub2 : ∀ i ∈ d :: ds', i < e := fun i hi => hb2 i (List.mem_cons_of_mem _ hi)
      have hlcs : (c :: cs').length = (d :: ds').length := hlen'
      have hr1 : linear e (c :: cs') < e ^ (d :: ds').length := by
        rw [← hlcs]; exact linear_lt e (c :: cs') (by simp) hsub1
      have hr2 := linear_lt e (d :: ds') (by simp) hsub2
      rw [linear_cons e a (c :: cs') (by simp), linear_cons e b (d :: ds') (by simp),
        hlcs] at heq
      have hq : 0 < e ^ (d :: ds').length := Nat.pos_pow_of_pos _ he
      have key : ∀ x r : Nat, r < e ^ (d :: ds').length →
          (x * e ^ (d :: ds').length + r) / e ^ (d :: ds').length = x := by
        intro x r hrQ
        rw [Nat.add_comm, Nat.add_mul_div_right _ _ hq, Nat.div_eq_of_lt hrQ,
          Nat.zero_add]
      have hab : a = b := by
        calc a = (a * e ^ (d :: ds').length + linear e (c :: cs'))
                  / e ^ (d :: ds').length := (key a _ hr1).symm
          _ = (b * e ^ (d :: ds').length + linear e (d :: ds'))
                  / e ^ (d :: ds').length := by rw [heq]
          _ = b := key b _ hr2
      subst hab
      have hrest : linear e (c :: cs') = linear e (d :: ds') :=
        Nat.add_left_cancel heq
      have htail := ih (d :: ds') hlen' hsub1 hsub2 hrest
      rw [htail]

end Endless

/-- C4: for every boolean occupancy field and every cell whose coordinate is
`0` or `extent - 1` on some axis, the visibility mask computed by
`visibility(environment(field))` never has the outward face of that axis set
for that cell, regardless of the occupancy of the cell or of any
neighbour. -/
theorem claim_C4_visibility_boundary (f : Endless.Field Bool) (x y z : Nat) :
    (x = 0 → ((f.environment.visibility).data x y z).xn = false) ∧
    (x = f.extent - 1 → ((f.environment.visibility).data x y z).xp = false) ∧
    (y = 0 → ((f.environment.visibility).data x y z).yn = false) ∧
    (y = f.extent - 1 → ((f.environment.visibility).data x y z).yp = false) ∧
    (z = 0 → ((f.environment.visibility).data x y z).zn = false) ∧
    (z = f.extent - 1 → ((f.environment.visibility).data x y z).zp = false) := by
  refine ⟨?_, ?_, ?_, ?_, ?_, ?_⟩ <;> rintro rfl <;>
    simp [Endless.Field.visibility, Endless.Field.environment]

/-- Witness for C4: in the fully occupied 3×3×3 field, the boundary cells
`(0,1,1)`, `(2,1,1)`, `(1,0,1)`, `(1,2,1)`, `(1,1,0)`, `(1,1,2)` do not
report their outward faces. -/
theorem claim_C4_witness :
    ((Endless.bfield.environment.visibility).data 0 1 1).xn = false ∧
    ((Endless.bfield.environment.visibility).data 2 1 1).xp = false ∧
    ((Endless.bfield.environment.visibility).data 1 0 1).yn = false ∧
    ((Endless.bfield.environment.visibility).data 1 2 1).yp = false ∧
    ((Endless.bfield.environment.visibility).data 1 1 0).zn = false ∧
    ((Endless.bfield.environment.visibility).data 1 1 2).zp = false :=
  ⟨(claim_C4_visibility_boundary Endless.bfield 0 1 1).1 rfl,
   (claim_C4_visibility_boundary Endless.bfield 2 1 1).2.1 rfl,
   (claim_C4_visibility_boundary Endless.bfield 1 0 1).2.2.1 rfl,
   (claim_C4_visibility_boundary Endless.bfield 1 2 1).2.2.2.1 rfl,
   (claim_C4_visibility_boundary Endless.bfield 1 1 0).2.2.2.2.1 rfl,
   (claim_C4_visibility_boundary Endless.bfield 1 1 2).2.2.2.2.2 rfl⟩

/-- C6: shell pruning is idempotent — for every boolean occupancy field `f`,
with `s = f.shell (f.environment)`, the field `s.shell (s.environment)`
equals `s` (same extent, same value at every coordinate). -/
theorem claim_C6_shell_idempotent (f : Endless.Field Bool) :
    ((f.shell f.environment).shell (f.shell f.environment).environment).extent
      = (f.shell f.environment).extent ∧
    ∀ x y z,
      ((f.shell f.environment).shell (f.shell f.environment).environment).data x y z
        = (f.shell f.environment).data x y z := by
  refine ⟨rfl, fun x y z => ?_⟩
  show ((f.shell f.environment).data x y z &&
      !(((f.shell f.environment).environment).data x y z).is_all)
    = (f.shell f.environment).data x y z
  cases hsd : (f.shell f.environment).data x y z with
  | false => simp
  | true =>
    simp only [Bool.true_and]
    have hfenv : ((f.environment).data x y z).is_all = false := by
      have h2 : (f.data x y z && !((f.environment).data x y z).is_all) = true := hsd
      rcases (Bool.and_eq_true _ _).mp h2 with ⟨_, hnot⟩
      simpa using hnot
    cases hall : (((f.shell f.environment).environment).data x y z).is_all with
    | false => simp
    | true =>
      have := Endless.is_all_mono (s := f.shell f.environment) (f := f) rfl
        (fun a b c hc => Endless.shell_data_le f f.environment a b c hc) x y z hall
      rw [this] at hfenv
      cases hfenv

/-- C10: the composed two-pass `visibility(environment(field))` equals the
direct single-pass reference definition `visRef`: a face bit is set exactly
when the cell is not on the field boundary along that axis and the
face-adjacent neighbour is unoccupied. -/
theorem claim_C10_visibility_refines_direct (f : Endless.Field Bool) :
    (f.environment.visibility).extent = f.visRef.extent ∧
    ∀ x y z, (f.environment.visibility).data x y z = f.visRef.data x y z := by
  refine ⟨rfl, fun x y z => ?_⟩
  simp only [Endless.Field.visibility, Endless.Field.environment,
    Endless.Field.visRef, Endless.Vis.mk.injEq]
  exact ⟨Endless.band_not_band _ _, Endless.band_not_band _ _,
    Endless.band_not_band _ _, Endless.band_not_band _ _,
    Endless.band_not_band _ _, Endless.band_not_band _ _⟩

/-- C7 (amended): the row-major linearization restricted to in-range
coordinates is an injection into `[0, extent^D)`, so every in-range
coordinate maps to exactly one buffer slot and never trips the buffer bounds
check (`IndexPanics`).  The original claim's panic guarantee for arbitrary
out-of-range coordinates does not hold — see the counterexample. -/
theorem claim_C7_linear_injection (e D : Nat) (hD : 1 ≤ D) (c1 c2 : List Nat)
    (h1 : c1.length = D) (h2 : c2.length = D)
    (hr1 : Endless.InRange e c1) (hr2 : Endless.InRange e c2) :
    Endless.linear e c1 < e ^ D ∧
    ¬ Endless.IndexPanics e D c1 ∧
    (Endless.linear e c1 = Endless.linear e c2 → c1 = c2) := by
  have hne : c1 ≠ [] := by
    intro h
    rw [h] at h1
    simp at h1
    omega
  have hlt : Endless.linear e c1 < e ^ D := by
    rw [← h1]
    exact Endless.linear_lt e c1 hne hr1
  refine ⟨hlt, ?_, ?_⟩
  · intro hp
    exact absurd hlt (Nat.not_lt.mpr hp)
  · intro heq
    exact Endless.linear_inj e c1 c2 (h1.trans h2.symm) hr1 hr2 heq

/-- Witness for C7: extent 3, dimension 3, coordinates `[0,1,2]` and
`[2,1,0]`. -/
theorem claim_C7_witness :
    Endless.linear 3 [0, 1, 2] < 3 ^ 3 ∧
    ¬ Endless.IndexPanics 3 3 [0, 1, 2] ∧
    (Endless.linear 3 [0, 1, 2] = Endless.linear 3 [2, 1, 0] →
      [0, 1, 2] = [2, 1, 0]) :=
  claim_C7_linear_injection 3 3 (by decide) [0, 1, 2] [2, 1, 0] rfl rfl
    (by decide) (by decide)

/-- Counterexample for C7: at extent 3 the out-of-range coordinate `[0,0,5]`
does not panic (its linear index 5 is below the buffer length 27) and it
silently aliases the valid slot of the in-range coordinate `[0,1,2]` —
refuting both "indexing with any out-of-range component panics" and "no
out-of-range coordinate silently aliases a valid slot". -/
theorem claim_C7_counterexample :
    ¬ Endless.InRange 3 [0, 0, 5] ∧
    ¬ Endless.IndexPanics 3 3 [0, 0, 5] ∧
    Endless.linear 3 [0, 0, 5] = Endless.linear 3 [0, 1, 2] ∧
    Endless.InRange 3 [0, 1, 2] := by
  decide

namespace Endless

/-- Every cross product computed by the mesh builder (over the 12 cube-face
triangles) is already a unit axis vector, so the source's `normalize()` is
the identity on it and the embedding may store the raw cross product. -/
lemma cross_unit :
    ∀ face ∈ [cubeFaceX0, cubeFaceX1, cubeFaceY0, cubeFaceY1, cubeFaceZ0,
      cubeFaceZ1], ∀ tri ∈ face,
      (let v0 := cubeVertices.getD tri.1 (0, 0, 0)
       let v1 := cubeVertices.getD tri.2.1 (0, 0, 0)
       let v2 := cubeVertices.getD tri.2.2 (0, 0, 0)
       let n := crossv (subv v2 v0) (subv v1 v0)
       n.1 ^ 2 + n.2.1 ^ 2 + n.2.2 ^ 2 = 1) := by
  decide

lemma cellVerts_length (e x y z : Nat) (v : Vis) (p : ℤ × ℤ × ℤ)
    (col : ℚ × ℚ × ℚ) :
    ((cellFaces e x y z v).flatMap fun face =>
      face.flatMap (triVertices p col)).length
      = 6 * ((if x = 0 ∨ v.xn then 1 else 0) + (if x = e - 1 ∨ v.xp then 1 else 0) +
        (if y = 0 ∨ v.yn then 1 else 0) + (if y = e - 1 ∨ v.yp then 1 else 0) +
        (if z = 0 ∨ v.zn then 1 else 0) + (if z = e - 1 ∨ v.zp then 1 else 0)) := by
  simp only [cellFaces]
  split_ifs <;>
    simp [triVertices, cubeFaceX0, cubeFaceX1, cubeFaceY0, cubeFaceY1,
      cubeFaceZ0, cubeFaceZ1]

lemma voxelMeshVertices_length (mask : Field Bool) (vis : Field Vis)
    (color : Field (ℚ × ℚ × ℚ)) :
    (voxelMeshVertices mask vis color).length = 6 * emittedFaceCount mask vis := by
  unfold voxelMeshVertices emittedFaceCount
  rw [List.length_flatMap]
  generalize coords3 mask.extent = L
  induction L with
  | nil => simp
  | cons c t ih =>
    simp only [List.map_cons, List.sum_cons, Function.comp_apply, Nat.mul_add]
    rw [ih]
    congr 1
    by_cases hm : mask.data c.1 c.2.1 c.2.2 = true
    · simp only [hm, if_true]
      exact cellVerts_length vis.extent c.1 c.2.1 c.2.2 (vis.data c.1 c.2.1 c.2.2)
        ((c.1 : ℤ), (c.2.1 : ℤ), (c.2.2 : ℤ)) (color.data c.1 c.2.1 c.2.2)
    · simp [hm]

end Endless

/-- C5 (amended): for every occupancy field, visibility field and color
field, the mesh builder emits, for each occupied cell, exactly two triangles
(6 vertices) for each face that is flagged visible *or* lies on the field
boundary on that face's side (coordinate 0 for the negative face,
`extent - 1` for the positive face), and nothing for other faces or for
unoccupied cells; the output vertex count is 6 times the number of such
(occupied cell, emitted face) pairs.  The original claim — vertices only for
*flagged* faces — fails at boundary cells; see the counterexample. -/
theorem claim_C5_mesh_vertex_count (mask : Endless.Field Bool)
    (vis : Endless.Field Endless.Vis) (color : Endless.Field (ℚ × ℚ × ℚ)) :
    (Endless.voxelMeshVertices mask vis color).length
      = 6 * Endless.emittedFaceCount mask vis :=
  Endless.voxelMeshVertices_length mask vis color

/-- Counterexample for C5: the fully occupied 1×1×1 field with its own
two-pass visibility has no face flagged visible, so the claim predicts
`6 * 0 = 0` emitted vertices, but the mesh builder emits all six boundary
faces: 36 vertices. -/
theorem claim_C5_counterexample :
    (Endless.voxelMeshVertices Endless.mask1 Endless.vis1 Endless.color1).length = 36 ∧
    Endless.visibleFlagCount Endless.mask1 Endless.vis1 = 0 := by
  decide

namespace Endless

lemma mem_intRange (lo hi n : ℤ) : n ∈ intRange lo hi ↔ lo ≤ n ∧ n ≤ hi := by
  unfold intRange
  rw [List.mem_map]
  constructor
  · rintro ⟨m, hm, rfl⟩
    rw [List.mem_range] at hm
    omega
  · rintro ⟨h1, h2⟩
    refine ⟨(n - lo).toNat, ?_, ?_⟩
    · rw [List.mem_range]
      omega
    · rw [Int.toNat_of_nonneg (by omega)]
      ring

lemma isqrtGo_eq (n m : Nat) (h : Nat.sqrt n ≤ m) : isqrtGo n m = Nat.sqrt n := by
  induction m with
  | zero =>
    simp only [isqrtGo]
    omega
  | succ m ih =>
    simp only [isqrtGo]
    by_cases hc : (m + 1) * (m + 1) ≤ n
    · rw [if_pos hc]
      have h1 := Nat.le_sqrt.mpr hc
      omega
    · rw [if_neg hc]
      apply ih
      have h2 : ¬ (m + 1 ≤ Nat.sqrt n) := fun hle => hc (Nat.le_sqrt.mp hle)
      omega

lemma isqrt_eq (n : Nat) : isqrt n = Nat.sqrt n :=
  isqrtGo_eq n n (Nat.sqrt_le_self n)

lemma lodOfOffset_mono (ls : Nat) (x1 y1 x2 y2 : ℤ)
    (h : x1 ^ 2 + y1 ^ 2 ≤ x2 ^ 2 + y2 ^ 2) :
    lodOfOffset ls x1 y1 ≤ lodOfOffset ls x2 y2 := by
  unfold lodOfOffset
  rw [isqrt_eq, isqrt_eq, Nat.shiftRight_eq_div_pow, Nat.shiftRight_eq_div_pow]
  exact Nat.div_le_div_right (Nat.sqrt_le_sqrt (Int.toNat_le_toNat h))

lemma requiredList_mem (cam : ℤ × ℤ) (ml ls : Nat) (k : Key) (l : Nat) :
    (k, l) ∈ requiredList cam ml ls ↔
      ∃ x y z : ℤ,
        -genRadius ls ≤ x ∧ x ≤ genRadius ls ∧
        -genRadius ls ≤ y ∧ y ≤ genRadius ls ∧
        (z = 0 ∨ z = 1) ∧ lodOfOffset ls x y ≤ ml ∧
        k = (cam.1 + x, cam.2 + y, z) ∧ l = lodOfOffset ls x y := by
  constructor
  · intro hm
    simp only [requiredList, List.mem_flatMap] at hm
    obtain ⟨x, hx, y, hy, z, hz, hm⟩ := hm
    rw [mem_intRange] at hx hy
    simp only [List.mem_cons, List.not_mem_nil, or_false] at hz
    rcases Decidable.em (lodOfOffset ls x y ≤ ml) with hc | hc
    · rw [if_pos hc] at hm
      simp only [List.mem_singleton, Prod.mk.injEq] at hm
      exact ⟨x, y, z, hx.1, hx.2, hy.1, hy.2, hz, hc, hm.1, hm.2⟩
    · rw [if_neg hc] at hm
      cases hm
  · rintro ⟨x, y, z, h1, h2, h3, h4, h5, h6, rfl, rfl⟩
    simp only [requiredList, List.mem_flatMap]
    refine ⟨x, (mem_intRange _ _ _).mpr ⟨h1, h2⟩,
      y, (mem_intRange _ _ _).mpr ⟨h3, h4⟩, z, ?_, ?_⟩
    · rcases h5 with rfl | rfl <;> simp
    · rw [if_pos h6]
      simp

lemma extent_pos_of_lod_le (l : Nat) (hl : l ≤ K) : 0 < N >>> l := by
  rw [Nat.shiftRight_eq_div_pow]
  apply Nat.div_pos _ (Nat.pos_pow_of_pos _ (by norm_num))
  calc 2 ^ l ≤ 2 ^ K := Nat.pow_le_pow_right (by norm_num) hl
    _ ≤ N := by norm_num [K, N]

end Endless

/-- C8: the per-frame required-chunk set is a pure function of the viewer
cell and the generation parameters — membership is invariant under
translating both the key and the viewer cell, and the LOD stored for a key is
exactly the quantized distance `⌊√(dx² + dy²)⌋ >> lod_shift` of its planar
offset from the viewer; the LOD is monotonically non-decreasing in the
squared planar distance; and whenever `max_lod` is within its slider range
`0..=K`, no stored LOD reduces the chunk's voxel extent `N >> lod` to
zero. -/
theorem claim_C8_required_set (cam : ℤ × ℤ) (ml ls : Nat) (x y z : ℤ) (l : Nat) :
    (((cam.1 + x, cam.2 + y, z), l) ∈ Endless.requiredList cam ml ls ↔
      ((x, y, z), l) ∈ Endless.requiredList (0, 0) ml ls) ∧
    (∀ x1 y1 x2 y2 : ℤ, x1 ^ 2 + y1 ^ 2 ≤ x2 ^ 2 + y2 ^ 2 →
      Endless.lodOfOffset ls x1 y1 ≤ Endless.lodOfOffset ls x2 y2) ∧
    (∀ k : Endless.Key, ∀ lod : Nat,
      (k, lod) ∈ Endless.requiredList cam ml ls →
        lod = Endless.lodOfOffset ls (k.1 - cam.1) (k.2.1 - cam.2) ∧
        (ml ≤ Endless.K → 0 < Endless.N >>> lod)) := by
  refine ⟨?_, fun x1 y1 x2 y2 h => Endless.lodOfOffset_mono ls x1 y1 x2 y2 h, ?_⟩
  · constructor
    · intro hm
      rw [Endless.requiredList_mem] at hm
      obtain ⟨a, b, c, h1, h2, h3, h4, h5, h6, hk, hl⟩ := hm
      rw [Prod.mk.injEq, Prod.mk.injEq] at hk
      rw [Endless.requiredList_mem]
      refine ⟨a, b, c, h1, h2, h3, h4, h5, h6, ?_, hl⟩
      rw [Prod.mk.injEq, Prod.mk.injEq]
      exact ⟨by omega, by omega, by omega⟩
    · intro hm
      rw [Endless.requiredList_mem] at hm
      obtain ⟨a, b, c, h1, h2, h3, h4, h5, h6, hk, hl⟩ := hm
      rw [Prod.mk.injEq, Prod.mk.injEq] at hk
      rw [Endless.requiredList_mem]
      refine ⟨a, b, c, h1, h2, h3, h4, h5, h6, ?_, hl⟩
      rw [Prod.mk.injEq, Prod.mk.injEq]
      exact ⟨by omega, by omega, by omega⟩
  · intro k lod hm
    rw [Endless.requiredList_mem] at hm
    obtain ⟨a, b, c, _, _, _, _, _, h6, hk, rfl⟩ := hm
    subst hk
    constructor
    · simp
    · intro hml
      exact Endless.extent_pos_of_lod_le _ (le_trans h6 hml)

/-- Witness for C8: with viewer cell `(5, 7)`, `max_lod = 1`, `lod_shift = 0`,
the key `(6, 7, 0)` is required at LOD 1, which equals the quantized distance
of its offset `(1, 0)` and leaves a positive voxel extent. -/
theorem claim_C8_witness :
    (1 : Nat) = Endless.lodOfOffset 0 ((6 : ℤ) - 5) ((7 : ℤ) - 7) ∧
    0 < Endless.N >>> 1 := by
  have h := (claim_C8_required_set (5, 7) 1 0 1 0 0 1).2.2 (6, 7, 0) 1 (by decide)
  exact ⟨h.1, h.2 (by decide)⟩

namespace Endless

lemma prioLtB_iff (p q : ℤ × Nat) :
    prioLtB p q = true ↔ (p.1 < q.1 ∨ (p.1 = q.1 ∧ p.2 < q.2)) := by
  simp [prioLtB, Bool.or_eq_true, Bool.and_eq_true, decide_eq_true_eq]

lemma prioLtB_eq_false_iff (p q : ℤ × Nat) :
    prioLtB p q = false ↔ ¬ (p.1 < q.1 ∨ (p.1 = q.1 ∧ p.2 < q.2)) := by
  constructor
  · intro h hh
    rw [(prioLtB_iff p q).mpr hh] at h
    cases h
  · intro h
    cases hb : prioLtB p q with
    | false => rfl
    | true => exact absurd ((prioLtB_iff p q).mp hb) h

lemma prioLeB_iff (p q : ℤ × Nat) :
    prioLeB p q = true ↔ (p.1 < q.1 ∨ (p.1 = q.1 ∧ p.2 ≤ q.2)) := by
  rw [prioLeB]
  cases hqp : prioLtB q p with
  | true =>
    have h1 := (prioLtB_iff q p).mp hqp
    simp only [Bool.not_true]
    constructor
    · intro h; cases h
    · intro h; exfalso; omega
  | false =>
    rw [prioLtB_eq_false_iff] at hqp
    simp only [Bool.not_false]
    constructor
    · intro _; omega
    · intro _; trivial

lemma prioLeB_refl (p : ℤ × Nat) : prioLeB p p = true := by
  rw [prioLeB_iff]
  omega

lemma prioLeB_trans (a b c : ℤ × Nat) (h1 : prioLeB a b = true)
    (h2 : prioLeB b c = true) : prioLeB a c = true := by
  rw [prioLeB_iff] at h1 h2 ⊢
  omega

lemma prioLtB_le (a b : ℤ × Nat) (h : prioLtB a b = true) : prioLeB a b = true := by
  rw [prioLtB_iff] at h
  rw [prioLeB_iff]
  omega

lemma not_prioLtB_le (a b : ℤ × Nat) (h : prioLtB a b = false) :
    prioLeB b a = true := by
  rw [prioLtB_eq_false_iff] at h
  rw [prioLeB_iff]
  omega

lemma minFold_spec (pl : Key) (t : List Entry) : ∀ acc : Entry,
    (minFold pl acc t = acc ∨ minFold pl acc t ∈ t) ∧
    prioLeB (priority pl (minFold pl acc t)) (priority pl acc) = true ∧
    ∀ e2 ∈ t, prioLeB (priority pl (minFold pl acc t)) (priority pl e2) = true := by
  induction t with
  | nil =>
    intro acc
    refine ⟨Or.inl rfl, prioLeB_refl _, ?_⟩
    intro e2 he2
    cases he2
  | cons x xs ih =>
    intro acc
    rw [show minFold pl acc (x :: xs)
        = minFold pl (if prioLtB (priority pl x) (priority pl acc) then x
            else acc) xs from rfl]
    by_cases hx : prioLtB (priority pl x) (priority pl acc) = true
    · rw [if_pos hx]
      obtain ⟨hmem, hle, hall⟩ := ih x
      refine ⟨?_, ?_, ?_⟩
      · rcases hmem with h | h
        · exact Or.inr (by rw [h]; exact List.mem_cons_self _ _)
        · exact Or.inr (List.mem_cons_of_mem _ h)
      · exact prioLeB_trans _ _ _ hle (prioLtB_le _ _ hx)
      · intro e2 he2
        rcases List.mem_cons.mp he2 with rfl | h
        · exact hle
        · exact hall e2 h
    · rw [if_neg hx]
      obtain ⟨hmem, hle, hall⟩ := ih acc
      have hxf : prioLtB (priority pl x) (priority pl acc) = false := by
        simpa using hx
      refine ⟨?_, hle, ?_⟩
      · rcases hmem with h | h
        · exact Or.inl h
        · exact Or.inr (List.mem_cons_of_mem _ h)
      · intro e2 he2
        rcases List.mem_cons.mp he2 with rfl | h
        · exact prioLeB_trans _ _ _ hle (not_prioLtB_le _ _ hxf)
        · exact hall e2 h

lemma minByPrio_some_spec (pl : Key) (l : List Entry) (e : Entry)
    (h : minByPrio pl l = some e) :
    e ∈ l ∧ ∀ e2 ∈ l, prioLeB (priority pl e) (priority pl e2) = true := by
  cases l with
  | nil => cases h
  | cons a t =>
    simp only [minByPrio, Option.some.injEq] at h
    obtain ⟨hmem, hle, hall⟩ := minFold_spec pl t a
    rw [show minFold pl a t = e from h] at hmem hle hall
    constructor
    · rcases hmem with h2 | h2
      · rw [h2]; exact List.mem_cons_self _ _
      · exact List.mem_cons_of_mem _ h2
    · intro e2 he2
      rcases List.mem_cons.mp he2 with rfl | h2
      · exact hle
      · exact hall e2 h2

lemma selectTask_some_spec (tl ip : List Entry) (pl : Key) (e : Entry)
    (h : selectTask tl ip pl = some e) :
    e ∈ tl ∧ eligibleB ip e = true ∧
    ∀ e2 ∈ tl, eligibleB ip e2 = true →
      prioLeB (priority pl e) (priority pl e2) = true := by
  obtain ⟨hmem, hall⟩ := minByPrio_some_spec pl _ e h
  rw [List.mem_filter] at hmem
  refine ⟨hmem.1, hmem.2, ?_⟩
  intro e2 he2 hel
  exact hall e2 (List.mem_filter.mpr ⟨he2, hel⟩)

lemma selectTask_none_of (tl ip : List Entry) (pl : Key)
    (h : ∀ e ∈ tl, eligibleB ip e = false) : selectTask tl ip pl = none := by
  unfold selectTask
  rw [List.filter_eq_nil_iff.mpr (fun e he => by rw [h e he]; exact Bool.false_ne_true)]
  rfl

end Endless

/-- C3: whenever a worker claims a task, the claimed `(key, LOD)` pair is a
pending task-list entry whose key is not in progress at the same LOD, and
among all such eligible entries it minimizes `(squared distance to the viewer
cell, LOD)` lexicographically; and when no pending entry is eligible, no
claim transition is enabled at all (the worker yields and retries). -/
theorem claim_C3_worker_task_selection :
    (∀ (s s' : Endless.SysState) (i : Fin 8) (e : Endless.Entry),
      Endless.ClaimStep i e s s' →
        e ∈ s.taskList ∧ Endless.eligibleB s.inProgress e = true ∧
        ∀ e2 ∈ s.taskList, Endless.eligibleB s.inProgress e2 = true →
          Endless.prioLeB (Endless.priority s.player e)
            (Endless.priority s.player e2) = true) ∧
    (∀ s : Endless.SysState,
      (∀ e ∈ s.taskList, Endless.eligibleB s.inProgress e = false) →
      ∀ (i : Fin 8) (e : Endless.Entry) (s' : Endless.SysState),
        ¬ Endless.ClaimStep i e s s') := by
  constructor
  · intro s s' i e hstep
    exact Endless.selectTask_some_spec s.taskList s.inProgress s.player e hstep.2.1
  · intro s hnone i e s' hstep
    obtain ⟨h1, h2, h3⟩ := hstep
    rw [Endless.selectTask_none_of s.taskList s.inProgress s.player hnone] at h2
    cases h2

/-- Witness for C3: in the one-task state `wState`, worker 0's claim of
`((0,0,0), 0)` is an eligible lexicographic minimizer. -/
theorem claim_C3_witness :
    (((0, 0, 0), 0) : Endless.Entry) ∈ Endless.wState.taskList ∧
    Endless.eligibleB Endless.wState.inProgress ((0, 0, 0), 0) = true ∧
    ∀ e2 ∈ Endless.wState.taskList,
      Endless.eligibleB Endless.wState.inProgress e2 = true →
      Endless.prioLeB (Endless.priority Endless.wState.player ((0, 0, 0), 0))
        (Endless.priority Endless.wState.player e2) = true :=
  claim_C3_worker_task_selection.1 Endless.wState
    (Endless.claimEffect 0 ((0, 0, 0), 0) Endless.wState) 0 ((0, 0, 0), 0)
    ⟨rfl, rfl, rfl⟩

namespace Endless

lemma lookupA_eraseKeyA (l : List Entry) (k : Key) :
    lookupA (eraseKeyA l k) k = none := by
  induction l with
  | nil => rfl
  | cons e t ih =>
    by_cases h : e.1 = k
    · rw [show eraseKeyA (e :: t) k = eraseKeyA t k by
        simp [eraseKeyA, List.filter_cons, h]]
      exact ih
    · simp only [eraseKeyA, List.filter_cons] at ih ⊢
      rw [if_pos (by simp [h])]
      simp only [lookupA, List.find?]
      rw [show (decide (e.1 = k)) = false by simp [h]]
      exact ih

lemma keysNodup_filter (l : List Entry) (p : Entry → Bool) (h : keysNodup l) :
    keysNodup (l.filter p) := by
  exact List.Nodup.sublist ((List.filter_sublist l).map Prod.fst) h

lemma keysNodup_insertA (l : List Entry) (k : Key) (v : Nat) (h : keysNodup l) :
    keysNodup (insertA l k v) := by
  unfold insertA keysNodup
  rw [List.map_append, List.nodup_append]
  refine ⟨keysNodup_filter l _ h, by simp, ?_⟩
  intro a ha hb
  simp only [List.map_cons, List.map_nil, List.mem_singleton] at hb
  subst hb
  simp only [eraseKeyA, List.mem_map] at ha
  obtain ⟨e, he, hek⟩ := ha
  rw [List.mem_filter] at he
  exact absurd hek (by simpa using he.2)

lemma inProgress_keysNodup (s : SysState) (h : Reachable s) :
    keysNodup s.inProgress := by
  induction h with
  | refl => exact List.nodup_nil
  | tail hsteps hstep ih =>
    rcases hstep with ⟨i, e, h1, h2, rfl⟩ | ⟨i, ⟨e, he⟩, rfl⟩ | rfl | ⟨cam, rfl⟩ |
      ⟨cam, ml, ls, hml, hls, rfl⟩
    · exact keysNodup_insertA _ _ _ ih
    · simp only [publishEffect, he]
      split
      · exact keysNodup_filter _ _ ih
      · exact ih
    · exact ih
    · exact ih
    · exact ih

end Endless

/-- C1 (amended): the `in_progress` table never holds two entries for the
same key — hence never two for the same `(key, LOD)` pair — and a worker
never claims a pair that the table currently records at the same LOD.  The
original claim — at most one *worker* ever generating a given `(key, LOD)`
pair — fails: see the counterexample, where a supersede-and-revert of the
required LOD lets a second worker claim a pair a first worker is still
generating. -/
theorem claim_C1_in_progress_unique :
    (∀ s : Endless.SysState, Endless.Reachable s → Endless.keysNodup s.inProgress) ∧
    (∀ (s s' : Endless.SysState) (i : Fin 8) (e : Endless.Entry),
      Endless.ClaimStep i e s s' →
        Endless.lookupA s.inProgress e.1 ≠ some e.2) := by
  constructor
  · exact fun s h => Endless.inProgress_keysNodup s h
  · intro s s' i e hstep heq
    have hel := (Endless.selectTask_some_spec s.taskList s.inProgress s.player e
      hstep.2.1).2.1
    rw [Endless.eligibleB, heq] at hel
    simp at hel

/-- Witness for C1: the empty start-up table, and worker 0's claim in the
one-task state `wState`, whose pair is not in the (empty) in-progress
table. -/
theorem claim_C1_witness :
    Endless.keysNodup Endless.initState.inProgress ∧
    Endless.lookupA Endless.wState.inProgress ((0, 0, 0) : Endless.Key) ≠ some 0 :=
  ⟨claim_C1_in_progress_unique.1 Endless.initState Relation.ReflTransGen.refl,
   claim_C1_in_progress_unique.2 Endless.wState
     (Endless.claimEffect 0 ((0, 0, 0), 0) Endless.wState) 0 ((0, 0, 0), 0)
     ⟨rfl, rfl, rfl⟩⟩

namespace Endless

lemma reachS1 : Reachable s1 :=
  Relation.ReflTransGen.single (Or.inr (Or.inr (Or.inr (Or.inl ⟨camA, rfl⟩))))

set_option maxRecDepth 200000 in
lemma reachS2 : Reachable s2 :=
  Relation.ReflTransGen.tail reachS1
    (Or.inr (Or.inr (Or.inr (Or.inr ⟨camA, 1, 0, by decide, by decide, rfl⟩))))

set_option maxRecDepth 200000 in
lemma reachS3 : Reachable s3 :=
  Relation.ReflTransGen.tail reachS2
    (Or.inl ⟨0, ((0, 0, 0), 0), rfl, by decide, rfl⟩)

lemma reachS4 : Reachable s4 :=
  Relation.ReflTransGen.tail reachS3
    (Or.inr (Or.inr (Or.inr (Or.inl ⟨camB, rfl⟩))))

set_option maxRecDepth 200000 in
lemma reachS5 : Reachable s5 :=
  Relation.ReflTransGen.tail reachS4
    (Or.inr (Or.inr (Or.inr (Or.inr ⟨camB, 1, 0, by decide, by decide, rfl⟩))))

set_option maxRecDepth 200000 in
lemma reachS6 : Reachable s6 :=
  Relation.ReflTransGen.tail reachS5
    (Or.inl ⟨1, ((1, 0, 0), 0), rfl, by decide, rfl⟩)

set_option maxRecDepth 200000 in
lemma reachS7 : Reachable s7 :=
  Relation.ReflTransGen.tail reachS6
    (Or.inl ⟨2, ((1, 0, 1), 0), rfl, by decide, rfl⟩)

set_option maxRecDepth 200000 in
lemma reachS8 : Reachable s8 :=
  Relation.ReflTransGen.tail reachS7
    (Or.inl ⟨3, ((1, -1, 0), 1), rfl, by decide, rfl⟩)

set_option maxRecDepth 200000 in
lemma reachS9 : Reachable s9 :=
  Relation.ReflTransGen.tail reachS8
    (Or.inl ⟨4, ((1, 1, 0), 1), rfl, by decide, rfl⟩)

set_option maxRecDepth 200000 in
lemma reachS10 : Reachable s10 :=
  Relation.ReflTransGen.tail reachS9
    (Or.inl ⟨5, ((0, 0, 0), 1), rfl, by decide, rfl⟩)

lemma reachS11 : Reachable s11 :=
  Relation.ReflTransGen.tail reachS10
    (Or.inr (Or.inr (Or.inr (Or.inl ⟨camA, rfl⟩))))

set_option maxRecDepth 200000 in
lemma reachS12 : Reachable s12 :=
  Relation.ReflTransGen.tail reachS11
    (Or.inr (Or.inr (Or.inr (Or.inr ⟨camA, 1, 0, by decide, by decide, rfl⟩))))

set_option maxRecDepth 200000 in
lemma reachS13 : Reachable s13 :=
  Relation.ReflTransGen.tail reachS12
    (Or.inl ⟨6, ((0, 0, 0), 0), rfl, by decide, rfl⟩)

end Endless

/-- Counterexample for C1: in the reachable state `s13`, the distinct
workers 0 and 6 are simultaneously generating the same pair `((0,0,0), 0)` —
the key's requested LOD was superseded to 1 and then reverted to 0 while
worker 0 was still running. -/
theorem claim_C1_counterexample :
    Endless.Reachable Endless.s13 ∧ ((0 : Fin 8) ≠ 6) ∧
    Endless.s13.workers 0 = some ((0, 0, 0), 0) ∧
    Endless.s13.workers 6 = some ((0, 0, 0), 0) :=
  ⟨Endless.reachS13, by decide, rfl, rfl⟩

/-- C2 (amended): when a worker publishes a generated chunk for its claimed
`(key, LOD)`, the chunk is forwarded on the result channel *iff the task
list* still maps the key to the claimed LOD at publish time (in which case
the entry is removed from the task list); independently, the in-progress
entry is removed iff it still equals the claimed LOD, and is left untouched
otherwise.  The original claim gates forwarding on the in-progress table;
the code gates it on the task list — see the counterexample, where a chunk
is forwarded although its key is in progress at a different LOD. -/
theorem claim_C2_publish_validation (s : Endless.SysState) (i : Fin 8)
    (k : Endless.Key) (l : Nat) (h : s.workers i = some (k, l)) :
    ((Endless.publishEffect i s).sent = s.sent ++ [(k, l)] ↔
      Endless.lookupA s.taskList k = some l) ∧
    (Endless.lookupA s.taskList k ≠ some l →
      (Endless.publishEffect i s).sent = s.sent) ∧
    (Endless.lookupA s.taskList k = some l →
      Endless.lookupA (Endless.publishEffect i s).taskList k = none) ∧
    (Endless.lookupA s.inProgress k = some l →
      Endless.lookupA (Endless.publishEffect i s).inProgress k = none) ∧
    (Endless.lookupA s.inProgress k ≠ some l →
      (Endless.publishEffect i s).inProgress = s.inProgress) ∧
    (Endless.publishEffect i s).workers i = none := by
  simp only [Endless.publishEffect, h]
  refine ⟨?_, ?_, ?_, ?_, ?_, ?_⟩
  · by_cases hc : Endless.lookupA s.taskList k = some l
    · rw [if_pos hc]
      simp [hc]
    · rw [if_neg hc]
      simp only [hc, iff_false]
      intro hcontra
      have := congrArg List.length hcontra
      simp at this
  · intro hc
    rw [if_neg hc]
  · intro hc
    rw [if_pos hc]
    exact Endless.lookupA_eraseKeyA _ _
  · intro hc
    rw [if_pos hc]
    exact Endless.lookupA_eraseKeyA _ _
  · intro hc
    rw [if_neg hc]
  · exact Function.update_same i none s.workers

/-- Witness for C2: in the state `wPub` — worker 0 generating `((0,0,0), 0)`
with the pair still pending and in progress — publishing forwards the chunk,
clears the task-list entry and the in-progress entry, and idles the
worker. -/
theorem claim_C2_witness :
    ((Endless.publishEffect 0 Endless.wPub).sent
        = Endless.wPub.sent ++ [(((0, 0, 0) : Endless.Key), 0)] ↔
      Endless.lookupA Endless.wPub.taskList (0, 0, 0) = some 0) ∧
    (Endless.lookupA Endless.wPub.taskList (0, 0, 0) ≠ some 0 →
      (Endless.publishEffect 0 Endless.wPub).sent = Endless.wPub.sent) ∧
    (Endless.lookupA Endless.wPub.taskList (0, 0, 0) = some 0 →
      Endless.lookupA (Endless.publishEffect 0 Endless.wPub).taskList (0, 0, 0)
        = none) ∧
    (Endless.lookupA Endless.wPub.inProgress (0, 0, 0) = some 0 →
      Endless.lookupA (Endless.publishEffect 0 Endless.wPub).inProgress (0, 0, 0)
        = none) ∧
    (Endless.lookupA Endless.wPub.inProgress (0, 0, 0) ≠ some 0 →
      (Endless.publishEffect 0 Endless.wPub).inProgress
        = Endless.wPub.inProgress) ∧
    (Endless.publishEffect 0 Endless.wPub).workers 0 = none :=
  claim_C2_publish_validation Endless.wPub 0 (0, 0, 0) 0 rfl

set_option maxRecDepth 200000 in
/-- Counterexample for C2: in the reachable state `s12`, worker 0 is still
generating `((0,0,0), 0)` while the in-progress table records LOD 1 for the
key (it was superseded), yet its publish step forwards the chunk on the
channel, because the task list again maps the key to LOD 0. -/
theorem claim_C2_counterexample :
    Endless.Reachable Endless.s12 ∧
    Endless.s12.workers 0 = some ((0, 0, 0), 0) ∧
    Endless.lookupA Endless.s12.inProgress (0, 0, 0) = some 1 ∧
    Endless.PublishStep 0 Endless.s12 (Endless.publishEffect 0 Endless.s12) ∧
    (Endless.publishEffect 0 Endless.s12).sent
      = Endless.s12.sent ++ [((0, 0, 0), 0)] ∧
    Endless.s12.sent = [] :=
  ⟨Endless.reachS12, rfl, by decide, ⟨⟨((0, 0, 0), 0), rfl⟩, rfl⟩, by decide, rfl⟩

namespace Endless

lemma affine_step {a b t M : ℚ} (ht0 : 0 ≤ t) (htM : t ≤ M) (h0 : a ≤ 0)
    (hM : a + M * b ≤ 0) : a + t * b ≤ 0 := by
  rcases le_or_lt b 0 with hb | hb
  · have h1 : t * b ≤ 0 := mul_nonpos_of_nonneg_of_nonpos ht0 hb
    linarith
  · have h1 : t * b ≤ M * b := mul_le_mul_of_nonneg_right htM hb.le
    linarith

lemma trilinear_nonpos (a b c d mx x y z : ℚ)
    (hx0 : 0 ≤ x) (hxM : x ≤ mx) (hy0 : 0 ≤ y) (hyM : y ≤ mx)
    (hz0 : 0 ≤ z) (hzM : z ≤ mx)
    (h1 : d ≤ 0) (h2 : c * mx + d ≤ 0)
    (h3 : b * mx + d ≤ 0) (h4 : b * mx + c * mx + d ≤ 0)
    (h5 : a * mx + d ≤ 0) (h6 : a * mx + c * mx + d ≤ 0)
    (h7 : a * mx + b * mx + d ≤ 0) (h8 : a * mx + b * mx + c * mx + d ≤ 0) :
    a * x + b * y + c * z + d ≤ 0 := by
  have hz1 : d + z * c ≤ 0 := affine_step hz0 hzM h1 (by linarith)
  have hz2 : (b * mx + d) + z * c ≤ 0 :=
    affine_step hz0 hzM (by linarith) (by linarith)
  have hz3 : (a * mx + d) + z * c ≤ 0 :=
    affine_step hz0 hzM (by linarith) (by linarith)
  have hz4 : (a * mx + b * mx + d) + z * c ≤ 0 :=
    affine_step hz0 hzM (by linarith) (by linarith)
  have hy1 : (d + z * c) + y * b ≤ 0 :=
    affine_step hy0 hyM (by linarith) (by linarith)
  have hy2 : (a * mx + d + z * c) + y * b ≤ 0 :=
    affine_step hy0 hyM (by linarith) (by linarith)
  have hx1 : (d + z * c + y * b) + x * a ≤ 0 :=
    affine_step hx0 hxM (by linarith) (by linarith)
  linarith

lemma dot4_point (pl : Vec4) (x y z : ℚ) :
    dot4 pl ⟨x, y, z, 1⟩ = pl.x * x + pl.y * y + pl.z * z + pl.w := by
  simp [dot4]

lemma dot4_nonpos_on_box (pl : Vec4) (mx x y z : ℚ)
    (hx0 : 0 ≤ x) (hxM : x ≤ mx) (hy0 : 0 ≤ y) (hyM : y ≤ mx)
    (hz0 : 0 ≤ z) (hzM : z ≤ mx)
    (hall : ∀ c ∈ cornersOf mx, dot4 pl ⟨c.1, c.2.1, c.2.2, 1⟩ ≤ 0) :
    dot4 pl ⟨x, y, z, 1⟩ ≤ 0 := by
  have c1 := hall (0, 0, 0) (by simp [cornersOf])
  have c2 := hall (0, 0, mx) (by simp [cornersOf])
  have c3 := hall (0, mx, 0) (by simp [cornersOf])
  have c4 := hall (0, mx, mx) (by simp [cornersOf])
  have c5 := hall (mx, 0, 0) (by simp [cornersOf])
  have c6 := hall (mx, 0, mx) (by simp [cornersOf])
  have c7 := hall (mx, mx, 0) (by simp [cornersOf])
  have c8 := hall (mx, mx, mx) (by simp [cornersOf])
  rw [dot4_point] at c1 c2 c3 c4 c5 c6 c7 c8 ⊢
  dsimp only at c1 c2 c3 c4 c5 c6 c7 c8
  exact trilinear_nonpos pl.x pl.y pl.z pl.w mx x y z hx0 hxM hy0 hyM hz0 hzM
    (by linarith) (by linarith) (by linarith) (by linarith) (by linarith)
    (by linarith) (by linarith) (by linarith)

end Endless

/-- C9 (amended): the frustum test skips a resident chunk exactly when at
least one of the 5 extracted half-space planes (left, right, bottom, top,
near — no far plane) has all 8 corners of the chunk's scaled bounding box at
non-positive signed distance; the test is conservative for frustum-interior
points — a chunk whose box contains any point at strictly positive distance
from all 5 planes is never culled.  The original claim's corollary that a
chunk whose box contains the *camera position* is never culled is false: the
camera lies strictly outside the near half-space (its near-plane value is
`-2 · near`), so a chunk containing the camera can be culled — see the
counterexample. -/
theorem claim_C9_frustum_culling (pvm : Endless.Mat4) (mx px py pz : ℚ) :
    (Endless.culled pvm mx = true ↔
      ∃ pl ∈ Endless.planesOf (Endless.transposeM pvm),
        ∀ c ∈ Endless.cornersOf mx,
          Endless.dot4 pl ⟨c.1, c.2.1, c.2.2, 1⟩ ≤ 0) ∧
    (0 ≤ px → px ≤ mx → 0 ≤ py → py ≤ mx → 0 ≤ pz → pz ≤ mx →
      (∀ pl ∈ Endless.planesOf (Endless.transposeM pvm),
        0 < Endless.dot4 pl ⟨px, py, pz, 1⟩) →
      Endless.culled pvm mx = false) := by
  have hchar : Endless.culled pvm mx = true ↔
      ∃ pl ∈ Endless.planesOf (Endless.transposeM pvm),
        ∀ c ∈ Endless.cornersOf mx,
          Endless.dot4 pl ⟨c.1, c.2.1, c.2.2, 1⟩ ≤ 0 := by
    simp only [Endless.culled, List.any_eq_true, List.all_eq_true,
      decide_eq_true_eq]
  refine ⟨hchar, ?_⟩
  intro hx0 hxM hy0 hyM hz0 hzM hpos
  cases hc : Endless.culled pvm mx with
  | false => rfl
  | true =>
    exfalso
    obtain ⟨pl, hpl, hall⟩ := hchar.mp hc
    have h1 := Endless.dot4_nonpos_on_box pl mx px py pz hx0 hxM hy0 hyM hz0 hzM hall
    have h2 := hpos pl hpl
    linarith

/-- Witness for C9: with the identity clip matrix and the unit box, the
interior point `(1/2, 1/2, 1/2)` is strictly inside all 5 planes, so the
chunk is not culled. -/
theorem claim_C9_witness : Endless.culled Endless.idM 1 = false :=
  (claim_C9_frustum_culling Endless.idM 1 (1 / 2) (1 / 2) (1 / 2)).2
    (by norm_num) (by norm_num) (by norm_num) (by norm_num) (by norm_num)
    (by norm_num)
    (by
      intro pl hpl
      simp only [Endless.planesOf, Endless.transposeM, Endless.idM,
        List.mem_cons, List.not_mem_nil, or_false] at hpl
      rcases hpl with rfl | rfl | rfl | rfl | rfl <;>
        norm_num [Endless.dot4, Endless.Vec4.add, Endless.Vec4.sub])

/-- Counterexample for C9: the chunk with key `(0,0,0)` at LOD 0 (box
`[0, 64]³`, placement the identity) strictly contains the camera position
`(32, 32, 1/20)` of the camera symmetry `camSymEx`, yet the culling test
rejects it — every box corner is behind the near plane. -/
theorem claim_C9_counterexample :
    Endless.camSymEx.inverse.translation = (32, 32, 1 / 20) ∧
    ((0 : ℚ) < 32 ∧ (32 : ℚ) < 64) ∧
    ((0 : ℚ) < 1 / 20 ∧ (1 / 20 : ℚ) < 64) ∧
    Endless.culled Endless.pvmEx 64 = true := by
  refine ⟨?_, by norm_num, by norm_num, ?_⟩
  · norm_num [Endless.SymmetryQ.inverse, Endless.camSymEx, Endless.quatRotate,
      Endless.addq, Endless.smulq]
  · norm_num [Endless.culled, Endless.planesOf, Endless.cornersOf,
      Endless.transposeM, Endless.pvmEx, Endless.projEx, Endless.camSymEx,
      Endless.chunkSymEx, Endless.SymmetryQ.matrix, Endless.perspectiveMatrix,
      Endless.mulM, Endless.mulV, Endless.Vec4.add, Endless.Vec4.sub,
      Endless.Vec4.smul, Endless.dot4, List.any_cons, List.all_cons,
      List.any_nil, List.all_nil, Bool.or_eq_true, Bool.and_eq_true,
      decide_eq_true_eq]
